import Mathlib

/-!
Verification of the `httpio` chunked HTTP reader (Go package, file
`httpio.go`).

This file gives a shallow embedding of the parts of `httpio.go` that the
claims are about, and proves properties of its chunk arithmetic, size
resolution, option constructors, and chunk-scheduling discipline.

Conventions of the embedding:
* Go `int` values are modelled as `Int` (sizes may be the sentinel -1).
* Byte contents are `List Nat`.
* The recursive goroutine `remoteFile.getChunk` (httpio.go lines 110-168)
  is embedded twice, at two levels of abstraction:
  - `chunkRanges` / `serveRange` / `streamBytes`: the pure byte-level
    denotation of the sequence of range requests it issues.  The Go
    recursion need not terminate when `size` is negative, so the Lean
    function is fuel-indexed; theorems supply enough fuel.
  - `Step`: a small-step transition system for the concurrency
    discipline (permit pool, ordering-token chain, pipe closure).
-/

namespace Httpio

/-- `DefaultConcurrency` constant, httpio.go line 14. -/
def DefaultConcurrency : Int := 5

/-- `DefaultChunkSize` constant, httpio.go line 15 (5 MiB = 5242880). -/
def DefaultChunkSize : Int := 1024 * 1024 * 5

/-- The configuration fields of Go's `remoteFile` struct (httpio.go lines
22-30) that the chunk arithmetic and the option constructors read.  The
fields `client`, `req` and `rd` are external collaborators (transport,
request template, pipe read side) and carry no data the claims depend on. -/
structure RemoteFile where
  chunkSize : Int
  concurrency : Int
  size : Int
  debug : Bool
deriving Repr, DecidableEq

/-- `WithConcurrency` (httpio.go lines 204-214): `if c < 1 { c = 1 }`,
stores `c`, always returns a nil error (`Except.ok`). -/
def withConcurrency (c : Int) (f : RemoteFile) : Except String RemoteFile :=
  Except.ok { f with concurrency := if c < 1 then 1 else c }

/-- `WithChunkSize` (httpio.go lines 217-227): `if c < 1 { c = DefaultChunkSize }`,
stores `c`, always returns a nil error (`Except.ok`). -/
def withChunkSize (c : Int) (f : RemoteFile) : Except String RemoteFile :=
  Except.ok { f with chunkSize := if c < 1 then DefaultChunkSize else c }

/-- The terminal-branch condition of `remoteFile.getChunk`
(httpio.go line 111): `start == f.size+1`. -/
def terminalCond (size start : Int) : Prop := start = size + 1

instance (size start : Int) : Decidable (terminalCond size start) := by
  unfold terminalCond; infer_instance

/-- The sequence of inclusive byte ranges requested by the recursive
`getChunk` chain (httpio.go lines 110-141): a task at offset `start`
stops if `start = size + 1`; otherwise it requests
`[start, end]` with `end = start + chunkSize` clipped to `size`
(lines 129-132) and spawns the next task at `end + 1` (line 137).
`fuel` bounds the recursion depth; for `size ≥ 0`, `chunkSize ≥ 1` and
`start = 0` any `fuel ≥ size + 1` is enough and the result no longer
depends on it. -/
def chunkRanges (size chunkSize start : Int) : Nat → List (Int × Int)
  | 0 => []
  | fuel + 1 =>
    if terminalCond size start then []
    else
      let e := if start + chunkSize > size then size else start + chunkSize
      (start, e) :: chunkRanges size chunkSize (e + 1) fuel

/-- The bytes a compliant HTTP server returns for a request
`Range: bytes=start-end` against a resource with content `data`:
the bytes at offsets `start ..= e` of `data`, clipped to the resource's
actual extent (RFC 7233: a last-byte-pos past the end is truncated).
This is the success assumption of the round-trip claim. -/
def serveRange (data : List Nat) (start e : Int) : List Nat :=
  (data.drop start.toNat).take (e - start + 1).toNat

/-- The concatenation of all chunk bodies, in the order the ordering-token
chain delivers them to the pipe (see the `Step` system below for why that
order is exactly the `chunkRanges` order): the byte-level denotation of
the stream the consumer reads from `GetContext`'s reader when every range
request succeeds.  `f.size` is the resolved size and `f.concurrency` only
bounds parallelism (httpio.go line 92), so it does not appear in the byte
arithmetic, exactly as in the source. -/
def streamBytes (f : RemoteFile) (data : List Nat) (fuel : Nat) : List Nat :=
  ((chunkRanges f.size f.chunkSize 0 fuel).map
    (fun r => serveRange data r.1 r.2)).flatten

/-- Go `strings.Split` for a one-character separator, on the underlying
character list (left-to-right field splitting; always at least one
field, so the empty string yields `[[]]`, just as in Go). -/
def splitChars (sep : Char) : List Char → List (List Char)
  | [] => [[]]
  | c :: cs =>
    match splitChars sep cs with
    | [] => [[]]
    | h :: t => if c = sep then [] :: h :: t else (c :: h) :: t

/-- An ASCII decimal digit, the only digits `strconv.Atoi` accepts. -/
def isDecDigit (c : Char) : Bool := 48 ≤ c.toNat && c.toNat ≤ 57

/-- The numeric value of a list of decimal digit characters. -/
def digitsVal (ds : List Char) : Nat :=
  ds.foldl (fun a c => a * 10 + (c.toNat - 48)) 0

/-- At least one digit, all digits: the body `strconv.Atoi` accepts
after the optional sign. -/
def parseDigits (ds : List Char) : Option Nat :=
  if ds.isEmpty then none
  else if ds.all isDecDigit then some (digitsVal ds)
  else none

/-- Go `strconv.Atoi`: an optional sign followed by at least one decimal
digit; anything else is an error (`none`). -/
def goAtoi (s : String) : Option Int :=
  match s.toList with
  | '-' :: ds => (parseDigits ds).map (fun n => -(n : Int))
  | '+' :: ds => (parseDigits ds).map (fun n => (n : Int))
  | ds => (parseDigits ds).map (fun n => (n : Int))

/-- The probe response fields `GetContext` reads (httpio.go lines 70-90):
`contentLength` is Go's `http.Response.ContentLength` (an `int64`; the
value `-1` means the length is unknown), `rangeHeader` is the value of
the response header named by `headerRange`. -/
structure ProbeResponse where
  contentLength : Int
  rangeHeader : String
deriving Repr, DecidableEq

/-- The last `/`-separated part of the header value:
`parts[len(parts)-1]` after `strings.Split(contentRange, "/")`
(httpio.go lines 74-81).  `splitChars`, like Go's `strings.Split`,
always returns a non-empty list, so `getLastD` never takes its default. -/
def lastPart (header : String) : String :=
  String.mk ((splitChars '/' header.toList).getLastD [])

/-- The size-resolution logic of `GetContext` (httpio.go lines 70-90):
if `res.ContentLength != 0` use it directly; otherwise take the last
`/`-separated part of the range header; `"*"` resolves to -1 (unbounded
marker); anything else must parse as an integer or the whole call fails. -/
def resolveSize (res : ProbeResponse) : Except String Int :=
  if res.contentLength ≠ 0 then Except.ok res.contentLength
  else
    let totalStr := lastPart res.rangeHeader
    if totalStr = "*" then Except.ok (-1)
    else
      match goAtoi totalStr with
      | some n => Except.ok n
      | none => Except.error "invalid syntax"

/-- The ways the metadata probe of `GetContext` can go
(httpio.go lines 58-67): building the HEAD request fails (line 58),
the transport call fails (line 64), or a response arrives. -/
inductive ProbeResult where
  | headReqError
  | transportError
  | response (res : ProbeResponse)
deriving Repr, DecidableEq

/-- The probe-and-resolve phase of `GetContext` (httpio.go lines 58-102):
an `Except.error` models Go's `return nil, err` (nil reader, non-nil
error), taken before the pipe is handed to the caller and before the
first `getChunk` goroutine is spawned (line 96); `Except.ok size` models
reaching line 96 with the resolved size. -/
def getContextProbe (probe : ProbeResult) : Except String Int :=
  match probe with
  | ProbeResult.headReqError => Except.error "request error"
  | ProbeResult.transportError => Except.error "unable to get content range"
  | ProbeResult.response res => resolveSize res

/-!
## The chunk-scheduler transition system

A small-step embedding of the concurrency structure of
`remoteFile.getChunk` (httpio.go lines 110-168) together with the pipe
and channel setup of `GetContext` (lines 45, 92-96).  Tasks are indexed
by chunk number: for a fetch that splits into `N` chunks, tasks
`0 .. N-1` are non-terminal (`start ≤ size`) and task `N` is the
terminal task (`start = size + 1`, line 111); `N` relates to the byte
arithmetic by `N = (chunkRanges size chunkSize 0 fuel).length`.

* The ordering token of task `i` is the `sequenceLock` channel it was
  passed.  It is never sent on, only closed: task `i`'s token becomes
  receivable exactly when task `i-1`'s invocation returns
  (`defer close(next)`, line 135).  Task 0's token is closed by
  `GetContext` itself (`defer close(sl)`, line 94) as soon as it
  returns, which it does without blocking, so it is modelled as always
  available (`tokenAvail`).
* The permit pool is the channel `cl` of capacity `concurrency`
  (line 92): a non-terminal task sends into it before fetching
  (line 124) and receives from it when its invocation returns
  (deferred at lines 125-127), so the pool's occupancy is the number of
  tasks between those two points (`holdsPermit`).
* The sink is the `io.Pipe`: `CloseWithError` keeps the first closure
  reason and ignores later ones (`closeSink`); a chunk body copied into
  an open pipe is eventually read by the consumer in copy order, so
  `writes` records the chunk indices whose `io.Copy` (line 159) ran
  against an open sink, in real-time order.  A whole-chunk copy is one
  step: the token chain admits only one copier at a time, so sub-writes
  of distinct chunks cannot overlap.
* Go's `select` picks randomly among ready cases, so a task with both
  its token available and the context cancelled may take either branch:
  both transitions are present and unguarded against each other.
-/

/-- The control points of one `getChunk` invocation that the
synchronization claims distinguish. -/
inductive TaskPhase where
  /-- The goroutine has not been spawned yet. -/
  | unspawned
  /-- A terminal task (line 111 taken) blocked in the select at
  lines 114-119. -/
  | termWait
  /-- A non-terminal task blocked sending into the permit channel
  (line 124). -/
  | needPermit
  /-- Permit held; about to spawn the successor goroutine (line 137). -/
  | toSpawn
  /-- Successor spawned; the range request of lines 139-143 in flight. -/
  | fetching
  /-- 2xx response in hand; blocked in the select at lines 155-158. -/
  | waitToken
  /-- The invocation has returned: the permit is released (lines
  125-127) and the successor's token channel is closed (line 135). -/
  | returned
deriving Repr, DecidableEq

/-- The reasons the pipe's write side is closed with
(`wr.CloseWithError`). -/
inductive CloseReason where
  /-- `io.EOF`, from the terminal task (line 118): clean end of stream. -/
  | eof
  /-- `ctx.Err()`, from a cancelled select (lines 116 and 157). -/
  | ctxErr
  /-- A transport error (line 145) or non-2xx status (line 151) on
  chunk `i`. -/
  | chunkErr (i : Nat)
  /-- An `io.Copy` error while writing chunk `i` (line 161). -/
  | copyErr (i : Nat)
deriving Repr, DecidableEq

/-- The shared state of one fetch operation. -/
structure SchedState where
  phase : Nat → TaskPhase
  cancelled : Bool
  sinkErr : Option CloseReason
  writes : List Nat

/-- Phases during which a task occupies a slot of the permit channel:
from the send at line 124 until the deferred receive when the
invocation returns. -/
def holdsPermit : TaskPhase → Bool
  | TaskPhase.toSpawn => true
  | TaskPhase.fetching => true
  | TaskPhase.waitToken => true
  | _ => false

/-- Occupancy of the permit channel `cl` (capacity `concurrency`,
line 92). -/
def permitCount (N : Nat) (s : SchedState) : Nat :=
  ((Finset.range (N + 1)).filter (fun i => holdsPermit (s.phase i) = true)).card

/-- Number of tasks whose range request is in flight. -/
def fetchCount (N : Nat) (s : SchedState) : Nat :=
  ((Finset.range (N + 1)).filter (fun i => s.phase i = TaskPhase.fetching)).card

/-- Task `i`'s ordering token is receivable: its channel has been
closed.  Task 0's token is `GetContext`'s `sl`, closed as `GetContext`
returns (line 94); task `i+1`'s token is task `i`'s `next`, closed when
task `i` returns (line 135). -/
def tokenAvail (s : SchedState) : Nat → Prop
  | 0 => True
  | i + 1 => s.phase i = TaskPhase.returned

/-- `io.Pipe`'s `CloseWithError`: the first closure reason sticks,
later calls are no-ops. -/
def closeSink (s : SchedState) (r : CloseReason) : Option CloseReason :=
  match s.sinkErr with
  | none => some r
  | some e => some e

/-- One interleaving step of the fetch operation with `N` non-terminal
chunks and permit capacity `K`. -/
inductive Step (N K : Nat) : SchedState → SchedState → Prop where
  /-- The context is cancelled (deadline or explicit cancel). -/
  | cancel (s : SchedState) (h : s.cancelled = false) :
      Step N K s { s with cancelled := true }
  /-- Line 124: a non-terminal task's send into `cl` completes; only
  possible while fewer than `K` slots are occupied. -/
  | acquire (s : SchedState) (i : Nat) (hi : i < N)
      (hp : s.phase i = TaskPhase.needPermit)
      (hcap : permitCount N s < K) :
      Step N K s { s with phase := Function.update s.phase i TaskPhase.toSpawn }
  /-- Line 137: the task spawns its successor, handing it the fresh
  `next` channel as ordering token, then proceeds to its own fetch. -/
  | spawnNext (s : SchedState) (i : Nat) (hi : i < N)
      (hp : s.phase i = TaskPhase.toSpawn) :
      Step N K s { s with
        phase := Function.update (Function.update s.phase i TaskPhase.fetching)
          (i + 1) (if i + 1 = N then TaskPhase.termWait else TaskPhase.needPermit) }
  /-- Lines 143-153 succeed: transport ok and the status is 2xx. -/
  | fetchOk (s : SchedState) (i : Nat) (hp : s.phase i = TaskPhase.fetching) :
      Step N K s { s with phase := Function.update s.phase i TaskPhase.waitToken }
  /-- Line 145 or line 151: transport failure or non-2xx status; the
  task closes the sink with its own error at once — no token needed —
  and returns. -/
  | fetchFail (s : SchedState) (i : Nat) (hp : s.phase i = TaskPhase.fetching) :
      Step N K s { s with phase := Function.update s.phase i TaskPhase.returned,
                          sinkErr := closeSink s (CloseReason.chunkErr i) }
  /-- Lines 158-159: the token is receivable and the select takes it;
  `io.Copy` moves the whole chunk into the open pipe; the invocation
  returns. -/
  | writeTurn (s : SchedState) (i : Nat) (hp : s.phase i = TaskPhase.waitToken)
      (ht : tokenAvail s i) (hopen : s.sinkErr = none) :
      Step N K s { s with phase := Function.update s.phase i TaskPhase.returned,
                          writes := s.writes ++ [i] }
  /-- Lines 159-162 with a mid-copy failure: some of chunk `i` may have
  reached the reader, then the sink is closed with the copy error. -/
  | writeCopyFail (s : SchedState) (i : Nat) (hp : s.phase i = TaskPhase.waitToken)
      (ht : tokenAvail s i) (hopen : s.sinkErr = none) :
      Step N K s { s with phase := Function.update s.phase i TaskPhase.returned,
                          writes := s.writes ++ [i],
                          sinkErr := some (CloseReason.copyErr i) }
  /-- Line 159 against an already-closed pipe: `io.Copy` fails without
  delivering anything, the `CloseWithError` at line 161 is a no-op. -/
  | writeClosed (s : SchedState) (i : Nat) (hp : s.phase i = TaskPhase.waitToken)
      (ht : tokenAvail s i) (hclosed : s.sinkErr ≠ none) :
      Step N K s { s with phase := Function.update s.phase i TaskPhase.returned }
  /-- Lines 156-157: the context is done and the select takes that
  branch instead of writing. -/
  | cancelWait (s : SchedState) (i : Nat) (hp : s.phase i = TaskPhase.waitToken)
      (hc : s.cancelled = true) :
      Step N K s { s with phase := Function.update s.phase i TaskPhase.returned,
                          sinkErr := closeSink s CloseReason.ctxErr }
  /-- Lines 117-118: the terminal task's token is receivable; it closes
  the sink with `io.EOF`. -/
  | termFinish (s : SchedState) (hp : s.phase N = TaskPhase.termWait)
      (ht : tokenAvail s N) :
      Step N K s { s with phase := Function.update s.phase N TaskPhase.returned,
                          sinkErr := closeSink s CloseReason.eof }
  /-- Lines 115-116: the terminal task observes cancellation. -/
  | termCancel (s : SchedState) (hp : s.phase N = TaskPhase.termWait)
      (hc : s.cancelled = true) :
      Step N K s { s with phase := Function.update s.phase N TaskPhase.returned,
                          sinkErr := closeSink s CloseReason.ctxErr }

/-- The state right after `GetContext` spawns the first task
(line 96): task 0 alone is live; it is terminal exactly when `N = 0`
(size resolved to -1, so `start 0 = size + 1`). -/
def initState (N : Nat) : SchedState :=
  { phase := fun i =>
      if i = 0 then (if 0 = N then TaskPhase.termWait else TaskPhase.needPermit)
      else TaskPhase.unspawned,
    cancelled := false, sinkErr := none, writes := [] }

/-- States one fetch operation can reach. -/
def Reachable (N K : Nat) (s : SchedState) : Prop :=
  Relation.ReflTransGen (Step N K) (initState N) s

/-- Structural invariant of the spawn chain: once task `i+1` exists,
task `i` has passed its own spawn point (line 137) and can only be
fetching, waiting its turn, or returned. -/
def SpawnChain (phase : Nat → TaskPhase) : Prop :=
  ∀ i : Nat, phase (i + 1) ≠ TaskPhase.unspawned →
    (phase i = TaskPhase.fetching ∨ phase i = TaskPhase.waitToken ∨
      phase i = TaskPhase.returned)

/-- Ordering invariant: recorded writes are by returned tasks; a task
that returned without a recorded write left the sink closed; and the
recorded write order is exactly chunk order `0, 1, 2, …`. -/
def WriteOrderInv (s : SchedState) : Prop :=
  (∀ i : Nat, i ∈ s.writes → s.phase i = TaskPhase.returned) ∧
  (∀ i : Nat, s.phase i = TaskPhase.returned → i ∉ s.writes → s.sinkErr ≠ none) ∧
  s.writes = List.range s.writes.length

/-!
## Witness executions

Concrete states used by the witness theorems below.
-/

deriving instance DecidableEq for Except

def c6WitMid : SchedState :=
  { initState 2 with phase := Function.update (initState 2).phase 0 TaskPhase.toSpawn }

def c6WitEnd : SchedState :=
  { c6WitMid with phase := Function.update (Function.update c6WitMid.phase 0
      TaskPhase.fetching) 1 TaskPhase.needPermit }

def c5w1 : SchedState :=
  { initState 1 with phase := Function.update (initState 1).phase 0 TaskPhase.toSpawn }

def c5w2 : SchedState :=
  { c5w1 with phase := Function.update (Function.update c5w1.phase 0 TaskPhase.fetching) 1 TaskPhase.termWait }

def c5w3 : SchedState :=
  { c5w2 with phase := Function.update c5w2.phase 0 TaskPhase.waitToken }

def c5w4 : SchedState :=
  { c5w3 with phase := Function.update c5w3.phase 0 TaskPhase.returned, writes := c5w3.writes ++ [0] }

def c5w5 : SchedState :=
  { c5w4 with phase := Function.update c5w4.phase 1 TaskPhase.returned, sinkErr := closeSink c5w4 CloseReason.eof }

def c7WitStart : SchedState :=
  { phase := fun j => if j = 0 then TaskPhase.fetching
      else if j = 1 then TaskPhase.termWait else TaskPhase.unspawned,
    cancelled := false, sinkErr := none, writes := [] }

def c8WitStart : SchedState :=
  { phase := fun j => if j = 0 then TaskPhase.fetching
      else if j = 1 then TaskPhase.termWait else TaskPhase.unspawned,
    cancelled := true, sinkErr := none, writes := [] }

/-!
## Theorems
-/

lemma chunkRanges_succ (size chunkSize start : Int) (fuel : Nat) :
    chunkRanges size chunkSize start (fuel + 1) =
      if terminalCond size start then []
      else
        let e := if start + chunkSize > size then size else start + chunkSize
        (start, e) :: chunkRanges size chunkSize (e + 1) fuel := rfl

lemma chunkRanges_concat (data : List Nat) (chunkSize : Int) (hc : 1 ≤ chunkSize) :
    ∀ (fuel : Nat) (start : Int), 0 ≤ start → start ≤ (data.length : Int) + 1 →
      ((data.length : Int) + 1 - start).toNat ≤ fuel →
      ((chunkRanges (data.length : Int) chunkSize start fuel).map
        (fun r => serveRange data r.1 r.2)).flatten = data.drop start.toNat := by
  intro fuel
  induction fuel with
  | zero =>
    intro start h0 h1 hf
    simp [chunkRanges]
    omega
  | succ fuel ih =>
    intro start h0 h1 hf
    by_cases hterm : terminalCond (data.length : Int) start
    · have hs : start = (data.length : Int) + 1 := hterm
      simp [chunkRanges, hterm]
      omega
    · have hstart_le : start ≤ (data.length : Int) := by
        unfold terminalCond at hterm; omega
      rw [chunkRanges_succ, if_neg hterm]
      simp only [List.map_cons, List.flatten_cons]
      set e : Int := if start + chunkSize > (data.length : Int) then (data.length : Int)
        else start + chunkSize with he
      have he1 : start ≤ e ∧ e ≤ (data.length : Int) := by
        rw [he]; split <;> omega
      rw [ih (e + 1) (by omega) (by omega) (by omega)]
      unfold serveRange
      have h2 : (e + 1).toNat = start.toNat + (e - start + 1).toNat := by omega
      rw [h2, List.drop_take_append_drop]

/-- Claim C1: for every resource content `data` of size `S = data.length`
fetched with any valid chunk size (`1 ≤ chunkSize`) and any concurrency
(`1 ≤ concurrency`, which bounds parallelism only and cannot influence the
byte arithmetic), the concatenation of all chunk bodies delivered in
token-chain order — i.e. the bytes successive `Read` calls return up to
end of stream — is byte-identical to `data`, assuming every range request
succeeds and the server returns the requested inclusive range of the
resource (clipped to its actual extent, as HTTP range semantics demand
for the final over-by-one request ending at `size`). -/
theorem c1_round_trip (f : RemoteFile) (data : List Nat)
    (hsize : f.size = (data.length : Int)) (hc : 1 ≤ f.chunkSize)
    (hk : 1 ≤ f.concurrency) (fuel : Nat) (hf : data.length + 1 ≤ fuel) :
    streamBytes f data fuel = data := by
  unfold streamBytes
  rw [hsize]
  have h := chunkRanges_concat data f.chunkSize hc fuel 0 le_rfl (by omega) (by omega)
  simpa using h

/-- Witness for C1 at a concrete resource of 3 bytes and chunk size 2. -/
theorem c1_round_trip_witness :
    streamBytes ⟨2, 1, 3, false⟩ [10, 20, 30] 4 = [10, 20, 30] :=
  c1_round_trip ⟨2, 1, 3, false⟩ [10, 20, 30] rfl (by decide) (by decide) 4 (by decide)

/-- Counterexample to C2 as stated: for size 12582912 and chunk size
5242880 the issued ranges are not `[0,5242880]`, `[5242881,10485760]`,
`[10485761,12582912]` — the second chunk's range really ends at
`start + chunkSize = 10485761`, not 10485760, and the third starts at
10485762. -/
theorem c2_boundary_counterexample :
    chunkRanges 12582912 5242880 0 5 ≠
      [(0, 5242880), (5242881, 10485760), (10485761, 12582912)] := by decide

/-- Claim C2 (amended): for resolved size 12582912 and chunk size 5242880
the scheduler issues exactly three range requests, with inclusive ranges
`[0,5242880]`, `[5242881,10485761]`, `[10485762,12582912]` — each chunk's
range being `[start, start + chunkSize]` clipped to the resolved size,
the next chunk starting at the previous end + 1.  Stated for every
sufficient recursion depth `fuel + 3`, so the result is fuel-independent. -/
theorem c2_chunk_boundaries (fuel : Nat) :
    chunkRanges 12582912 5242880 0 (fuel + 3) =
      [(0, 5242880), (5242881, 10485761), (10485762, 12582912)] ∧
    (chunkRanges 12582912 5242880 0 (fuel + 3)).length = 3 := by
  have hterm : ∀ g : Nat, chunkRanges 12582912 5242880 12582913 g = [] := by
    intro g
    cases g with
    | zero => rfl
    | succ g => simp [chunkRanges_succ, terminalCond]
  have hmain : chunkRanges 12582912 5242880 0 (fuel + 3) =
      [(0, 5242880), (5242881, 10485761), (10485762, 12582912)] := by
    calc chunkRanges 12582912 5242880 0 (fuel + 3)
        = (0, 5242880) :: chunkRanges 12582912 5242880 5242881 (fuel + 2) := by
          rw [chunkRanges_succ]; norm_num [terminalCond]
      _ = (0, 5242880) :: (5242881, 10485761) ::
            chunkRanges 12582912 5242880 10485762 (fuel + 1) := by
          rw [chunkRanges_succ]; norm_num [terminalCond]
      _ = (0, 5242880) :: (5242881, 10485761) :: (10485762, 12582912) ::
            chunkRanges 12582912 5242880 12582913 fuel := by
          rw [chunkRanges_succ]; norm_num [terminalCond]
      _ = [(0, 5242880), (5242881, 10485761), (10485762, 12582912)] := by
          rw [hterm]
  exact ⟨hmain, by rw [hmain]; rfl⟩

/-- Claim C4 (evaluation at the failing input): contrary to the claim
(and to the code's own comment at httpio.go lines 78-80, which promises
sequential downloads until a 416), with the unbounded marker `size = -1`
the very first task — start offset 0 — satisfies the terminal condition
`start = size + 1` of line 111.  Hence the chunk recursion issues no
range request at all, and from the `N = 0` initial scheduler state a
single `termFinish` step closes the sink with clean EOF and zero bytes
written. -/
theorem c4_unknown_size_zero_fetches :
    terminalCond (-1) 0 ∧
    (∀ (chunkSize : Int) (fuel : Nat), chunkRanges (-1) chunkSize 0 fuel = []) ∧
    (∃ s : SchedState, Step 0 5 (initState 0) s ∧
      s.sinkErr = some CloseReason.eof ∧ s.writes = []) := by
  refine ⟨by decide, ?_, ?_⟩
  · intro cs fuel
    cases fuel with
    | zero => rfl
    | succ g => simp [chunkRanges_succ, terminalCond]
  · exact ⟨_, Step.termFinish (initState 0) rfl trivial, rfl, rfl⟩

/-- Counterexample to C3 as stated: a probe response whose content-length
field is -1 (Go's `http.Response.ContentLength` value for length unknown,
i.e. no explicit total length reported) and whose range header carries
the numeric total 12345 must, per the claim, resolve to 12345; the code
resolves it to -1, because its guard is `ContentLength != 0`, not "an
explicit total length was reported". -/
theorem c3_counterexample :
    resolveSize ⟨-1, "bytes 0-0/12345"⟩ = Except.ok (-1) ∧
      goAtoi (lastPart "bytes 0-0/12345") = some 12345 ∧
      (Except.ok (-1) : Except String Int) ≠ Except.ok 12345 := by
  refine ⟨by decide, by decide, by decide⟩

/-- Claim C3 (amended): size resolution keys on the content-length field
being nonzero, not on an explicit length being reported.  If the field is
any nonzero value — including -1, Go's "unknown" marker — the resolved
size equals that field; only when the field is exactly 0 is the range
header consulted: a last `/`-separated part `"*"` resolves to -1 (the
unbounded marker, e.g. `bytes 0-0/*`), and a numeric last part resolves
to its value. -/
theorem c3_size_resolution (res : ProbeResponse) :
    (res.contentLength ≠ 0 → resolveSize res = Except.ok res.contentLength) ∧
    (res.contentLength = 0 → lastPart res.rangeHeader = "*" →
      resolveSize res = Except.ok (-1)) ∧
    (∀ n : Int, res.contentLength = 0 → goAtoi (lastPart res.rangeHeader) = some n →
      resolveSize res = Except.ok n) := by
  refine ⟨?_, ?_, ?_⟩
  · intro h; unfold resolveSize; rw [if_pos h]
  · intro h0 hstar
    unfold resolveSize
    rw [if_neg (by simp [h0]), if_pos hstar]
  · intro n h0 hn
    unfold resolveSize
    rw [if_neg (by simp [h0])]
    have hstar : lastPart res.rangeHeader ≠ "*" := by
      intro h
      rw [h] at hn
      rw [show goAtoi "*" = none from by decide] at hn
      exact Option.noConfusion hn
    rw [if_neg hstar, hn]

/-- Witness for C3 (amended) at the spec's scenario input `bytes 0-0/*`
with content length 0. -/
theorem c3_size_resolution_witness :
    resolveSize ⟨0, "bytes 0-0/*"⟩ = Except.ok (-1) :=
  (c3_size_resolution ⟨0, "bytes 0-0/*"⟩).2.1 rfl (by decide)

/-- Claim C9: if the metadata probe cannot be issued (HEAD request
construction or transport error) or its size information cannot be
parsed (content length 0 and a range-header total that is neither `"*"`
nor numeric), the probe phase of `GetContext` results in `Except.error`:
a nil reader together with a non-nil error, returned before any stream
is handed to the caller and before the first chunk goroutine is
spawned. -/
theorem c9_probe_failure_fatal (probe : ProbeResult)
    (h : ∀ res, probe = ProbeResult.response res →
      res.contentLength = 0 ∧ goAtoi (lastPart res.rangeHeader) = none ∧
        lastPart res.rangeHeader ≠ "*") :
    ∃ msg, getContextProbe probe = Except.error msg := by
  cases probe with
  | headReqError => exact ⟨_, rfl⟩
  | transportError => exact ⟨_, rfl⟩
  | response res =>
    obtain ⟨h0, hnone, hstar⟩ := h res rfl
    refine ⟨"invalid syntax", ?_⟩
    show resolveSize res = _
    unfold resolveSize
    rw [if_neg (by simp [h0]), if_neg hstar, hnone]

/-- Witness for C9 at a response with content length 0 and the
unparsable range header `bytes 0-0/abc`. -/
theorem c9_probe_failure_fatal_witness :
    ∃ msg, getContextProbe (ProbeResult.response ⟨0, "bytes 0-0/abc"⟩) =
      Except.error msg :=
  c9_probe_failure_fatal _ (by
    intro res h
    cases h
    exact ⟨rfl, by decide, by decide⟩)

/-- Claim C10: the option constructors never reject out-of-range values
but clamp asymmetrically — for every `c < 1`, `WithConcurrency c` sets
the concurrency limit to 1 while `WithChunkSize c` sets the chunk size to
the default 5 MiB (5242880), and both constructors return a nil error for
all inputs. -/
theorem c10_option_clamping (f : RemoteFile) (c : Int) (hc : c < 1) :
    withConcurrency c f = Except.ok { f with concurrency := 1 } ∧
    withChunkSize c f = Except.ok { f with chunkSize := 5242880 } ∧
    DefaultChunkSize = 5242880 ∧
    (∀ (d : Int) (g : RemoteFile), (∃ g1, withConcurrency d g = Except.ok g1) ∧
      (∃ g2, withChunkSize d g = Except.ok g2)) := by
  refine ⟨?_, ?_, by decide, ?_⟩
  · unfold withConcurrency; rw [if_pos hc]
  · unfold withChunkSize; rw [if_pos hc]; norm_num [DefaultChunkSize]
  · intro d g; exact ⟨⟨_, rfl⟩, ⟨_, rfl⟩⟩

/-- Witness for C10 at `c = 0` on a default-configured file. -/
theorem c10_option_clamping_witness :
    withConcurrency 0 ⟨5242880, 5, 0, false⟩ = Except.ok ⟨5242880, 1, 0, false⟩ ∧
    withChunkSize 0 ⟨5242880, 5, 0, false⟩ = Except.ok ⟨5242880, 5, 0, false⟩ := by
  have h := c10_option_clamping ⟨5242880, 5, 0, false⟩ 0 (by decide)
  exact ⟨h.1, h.2.1⟩


lemma tokenAvail_succ (s : SchedState) (i : Nat) :
    tokenAvail s (i + 1) = (s.phase i = TaskPhase.returned) := rfl

lemma closeSink_ne_none (s : SchedState) (r : CloseReason) : closeSink s r ≠ none := by
  unfold closeSink; cases s.sinkErr <;> simp

lemma card_filter_update_le {n : Nat} (f : Nat → TaskPhase) (j : Nat) (v : TaskPhase)
    (p : TaskPhase → Bool) (hv : p v = true → p (f j) = true) :
    ((Finset.range n).filter (fun i => p (Function.update f j v i) = true)).card ≤
      ((Finset.range n).filter (fun i => p (f i) = true)).card := by
  apply Finset.card_le_card
  intro i hi
  simp only [Finset.mem_filter] at hi ⊢
  refine ⟨hi.1, ?_⟩
  by_cases hij : i = j
  · subst hij
    rw [Function.update_same] at hi
    exact hv hi.2
  · rw [Function.update_noteq hij] at hi
    exact hi.2

lemma card_filter_update_le_succ {n : Nat} (f : Nat → TaskPhase) (j : Nat) (v : TaskPhase)
    (p : TaskPhase → Bool) :
    ((Finset.range n).filter (fun i => p (Function.update f j v i) = true)).card ≤
      ((Finset.range n).filter (fun i => p (f i) = true)).card + 1 := by
  have hsub : (Finset.range n).filter (fun i => p (Function.update f j v i) = true) ⊆
      insert j ((Finset.range n).filter (fun i => p (f i) = true)) := by
    intro i hi
    simp only [Finset.mem_filter, Finset.mem_insert] at hi ⊢
    by_cases hij : i = j
    · exact Or.inl hij
    · rw [Function.update_noteq hij] at hi
      exact Or.inr ⟨hi.1, hi.2⟩
  calc ((Finset.range n).filter (fun i => p (Function.update f j v i) = true)).card
      ≤ (insert j ((Finset.range n).filter (fun i => p (f i) = true))).card :=
        Finset.card_le_card hsub
    _ ≤ ((Finset.range n).filter (fun i => p (f i) = true)).card + 1 :=
        Finset.card_insert_le _ _

lemma permitCount_init (N : Nat) : permitCount N (initState N) = 0 := by
  unfold permitCount
  rw [Finset.card_eq_zero, Finset.filter_eq_empty_iff]
  intro i _
  simp only [initState]
  by_cases h0 : i = 0
  · rw [if_pos h0]
    by_cases hN : 0 = N
    · rw [if_pos hN]; decide
    · rw [if_neg hN]; decide
  · rw [if_neg h0]; decide

lemma permitCount_step {N K : Nat} {s s' : SchedState} (h : Step N K s s')
    (hinv : permitCount N s ≤ K) : permitCount N s' ≤ K := by
  cases h with
  | cancel h => exact hinv
  | acquire i hi hp hcap =>
    have hle := card_filter_update_le_succ (n := N + 1) s.phase i TaskPhase.toSpawn holdsPermit
    show ((Finset.range (N + 1)).filter
      (fun j => holdsPermit (Function.update s.phase i TaskPhase.toSpawn j) = true)).card ≤ K
    unfold permitCount at hcap
    omega
  | spawnNext i hi hp =>
    unfold permitCount at *
    refine le_trans (le_trans (card_filter_update_le _ _ _ _ ?_)
      (card_filter_update_le _ _ _ _ ?_)) hinv
    · intro hv
      exfalso
      have : holdsPermit (if i + 1 = N then TaskPhase.termWait else TaskPhase.needPermit)
          = false := by split <;> rfl
      rw [this] at hv
      exact Bool.noConfusion hv
    · intro _
      rw [hp]; rfl
  | fetchOk i hp =>
    refine le_trans (card_filter_update_le _ _ _ _ ?_) hinv
    intro _
    rw [hp]; rfl
  | fetchFail i hp =>
    refine le_trans (card_filter_update_le _ _ _ _ ?_) hinv
    intro hv
    exact Bool.noConfusion hv
  | writeTurn i hp ht hopen =>
    refine le_trans (card_filter_update_le _ _ _ _ ?_) hinv
    intro hv
    exact Bool.noConfusion hv
  | writeCopyFail i hp ht hopen =>
    refine le_trans (card_filter_update_le _ _ _ _ ?_) hinv
    intro hv
    exact Bool.noConfusion hv
  | writeClosed i hp ht hclosed =>
    refine le_trans (card_filter_update_le _ _ _ _ ?_) hinv
    intro hv
    exact Bool.noConfusion hv
  | cancelWait i hp hc =>
    refine le_trans (card_filter_update_le _ _ _ _ ?_) hinv
    intro hv
    exact Bool.noConfusion hv
  | termFinish hp ht =>
    refine le_trans (card_filter_update_le _ _ _ _ ?_) hinv
    intro hv
    exact Bool.noConfusion hv
  | termCancel hp hc =>
    refine le_trans (card_filter_update_le _ _ _ _ ?_) hinv
    intro hv
    exact Bool.noConfusion hv

lemma permitCount_reach {N K : Nat} {s : SchedState} (h : Reachable N K s) :
    permitCount N s ≤ K := by
  unfold Reachable at h
  induction h with
  | refl => rw [permitCount_init]; omega
  | tail hab hbc ih => exact permitCount_step hbc ih

/-- Claim C6: in every reachable state at most `K = concurrency` chunk
tasks hold an active network call.  A non-terminal task occupies a permit
slot from its acquire (line 124) until its invocation returns — on every
exit path (deferred release, lines 125-127) — and the fetch happens
strictly inside that window, so the number of in-flight fetches is
bounded by the permit-pool occupancy, which never exceeds `K`. -/
theorem c6_bounded_concurrency (N K : Nat) (s : SchedState) (h : Reachable N K s) :
    fetchCount N s ≤ K ∧ permitCount N s ≤ K := by
  have hper := permitCount_reach h
  refine ⟨le_trans ?_ hper, hper⟩
  unfold fetchCount permitCount
  apply Finset.card_le_card
  intro i hi
  simp only [Finset.mem_filter] at hi ⊢
  refine ⟨hi.1, ?_⟩
  rw [hi.2]; rfl

/-- Witness for C6: a concrete 2-step execution (one acquire, one spawn;
two chunks, permit capacity 1) in which exactly one task is fetching;
the bound comes from the theorem. -/
theorem c6_bounded_concurrency_witness :
    ∃ s : SchedState, Reachable 2 1 s ∧ fetchCount 2 s = 1 ∧ fetchCount 2 s ≤ 1 := by
  have h1 : Step 2 1 (initState 2) c6WitMid :=
    Step.acquire (initState 2) 0 (by decide) rfl (by decide)
  have h2 : Step 2 1 c6WitMid c6WitEnd :=
    Step.spawnNext c6WitMid 0 (by decide) (by decide)
  have hreach : Reachable 2 1 c6WitEnd :=
    Relation.ReflTransGen.tail (Relation.ReflTransGen.tail Relation.ReflTransGen.refl h1) h2
  exact ⟨c6WitEnd, hreach, by decide, (c6_bounded_concurrency 2 1 c6WitEnd hreach).1⟩



lemma spawnChain_init (N : Nat) : SpawnChain (initState N).phase := by
  intro i hne
  exfalso
  apply hne
  show (if i + 1 = 0 then (if 0 = N then TaskPhase.termWait else TaskPhase.needPermit)
    else TaskPhase.unspawned) = TaskPhase.unspawned
  rw [if_neg (Nat.succ_ne_zero i)]

lemma spawnChain_update {p : Nat → TaskPhase} {i : Nat} {v : TaskPhase} (hc : SpawnChain p)
    (hA : (p i = TaskPhase.fetching ∨ p i = TaskPhase.waitToken ∨
        p i = TaskPhase.returned) →
      (v = TaskPhase.fetching ∨ v = TaskPhase.waitToken ∨ v = TaskPhase.returned))
    (hB : p i ≠ TaskPhase.unspawned) :
    SpawnChain (Function.update p i v) := by
  intro j hne
  by_cases hji : j = i
  · subst hji
    rw [Function.update_noteq (by omega)] at hne
    rw [Function.update_same]
    exact hA (hc j hne)
  · by_cases hji1 : j + 1 = i
    · have hold : p (j + 1) ≠ TaskPhase.unspawned := by rw [hji1]; exact hB
      rw [Function.update_noteq hji]
      exact hc j hold
    · rw [Function.update_noteq hji1] at hne
      rw [Function.update_noteq hji]
      exact hc j hne

lemma spawnChain_spawnNext {p : Nat → TaskPhase} {i : Nat} (hc : SpawnChain p)
    (hp : p i = TaskPhase.toSpawn) (v : TaskPhase) (hv : v ≠ TaskPhase.unspawned) :
    SpawnChain (Function.update (Function.update p i TaskPhase.fetching) (i + 1) v) := by
  have hunspawned : p (i + 1) = TaskPhase.unspawned := by
    by_contra hne
    rcases hc i hne with h | h | h <;> rw [hp] at h <;> exact TaskPhase.noConfusion h
  intro j hne
  by_cases hji : j = i
  · subst hji
    rw [Function.update_noteq (by omega : j ≠ j + 1), Function.update_same]
    exact Or.inl rfl
  · by_cases hji1 : j = i + 1
    · exfalso
      subst hji1
      rw [Function.update_noteq (by omega : i + 1 + 1 ≠ i + 1),
        Function.update_noteq (by omega : i + 1 + 1 ≠ i)] at hne
      rcases hc (i + 1) hne with h | h | h <;> rw [hunspawned] at h <;>
        exact TaskPhase.noConfusion h
    · by_cases hji2 : j + 1 = i
      · have hold : p (j + 1) ≠ TaskPhase.unspawned := by
          rw [hji2, hp]; exact fun hcon => TaskPhase.noConfusion hcon
        rw [Function.update_noteq hji1, Function.update_noteq hji]
        exact hc j hold
      · by_cases hji3 : j + 1 = i + 1
        · exact absurd (by omega : j = i) hji
        · rw [Function.update_noteq hji3, Function.update_noteq hji2] at hne
          rw [Function.update_noteq hji1, Function.update_noteq hji]
          exact hc j hne

lemma spawnChain_step {N K : Nat} {s s' : SchedState} (h : Step N K s s')
    (hc : SpawnChain s.phase) : SpawnChain s'.phase := by
  cases h with
  | cancel h => exact hc
  | acquire i hi hp hcap =>
    apply spawnChain_update hc
    · intro h3
      rcases h3 with hx | hx | hx <;> rw [hp] at hx <;> exact TaskPhase.noConfusion hx
    · rw [hp]; exact fun hcon => TaskPhase.noConfusion hcon
  | spawnNext i hi hp =>
    apply spawnChain_spawnNext hc hp
    split <;> exact fun hcon => TaskPhase.noConfusion hcon
  | fetchOk i hp =>
    apply spawnChain_update hc
    · intro _; exact Or.inr (Or.inl rfl)
    · rw [hp]; exact fun hcon => TaskPhase.noConfusion hcon
  | fetchFail i hp =>
    apply spawnChain_update hc
    · intro _; exact Or.inr (Or.inr rfl)
    · rw [hp]; exact fun hcon => TaskPhase.noConfusion hcon
  | writeTurn i hp ht hopen =>
    apply spawnChain_update hc
    · intro _; exact Or.inr (Or.inr rfl)
    · rw [hp]; exact fun hcon => TaskPhase.noConfusion hcon
  | writeCopyFail i hp ht hopen =>
    apply spawnChain_update hc
    · intro _; exact Or.inr (Or.inr rfl)
    · rw [hp]; exact fun hcon => TaskPhase.noConfusion hcon
  | writeClosed i hp ht hclosed =>
    apply spawnChain_update hc
    · intro _; exact Or.inr (Or.inr rfl)
    · rw [hp]; exact fun hcon => TaskPhase.noConfusion hcon
  | cancelWait i hp hcc =>
    apply spawnChain_update hc
    · intro _; exact Or.inr (Or.inr rfl)
    · rw [hp]; exact fun hcon => TaskPhase.noConfusion hcon
  | termFinish hp ht =>
    apply spawnChain_update hc
    · intro _; exact Or.inr (Or.inr rfl)
    · rw [hp]; exact fun hcon => TaskPhase.noConfusion hcon
  | termCancel hp hcc =>
    apply spawnChain_update hc
    · intro _; exact Or.inr (Or.inr rfl)
    · rw [hp]; exact fun hcon => TaskPhase.noConfusion hcon

lemma writeOrder_init (N : Nat) : WriteOrderInv (initState N) := by
  refine ⟨?_, ?_, rfl⟩
  · intro i hi
    exact absurd hi (List.not_mem_nil i)
  · intro i hret _
    exfalso
    have hret' : (if i = 0 then (if 0 = N then TaskPhase.termWait else TaskPhase.needPermit)
        else TaskPhase.unspawned) = TaskPhase.returned := hret
    by_cases h0 : i = 0
    · rw [if_pos h0] at hret'
      split at hret' <;> exact TaskPhase.noConfusion hret'
    · rw [if_neg h0] at hret'
      exact TaskPhase.noConfusion hret'

lemma write_extends {s : SchedState} {i : Nat} (hw : WriteOrderInv s)
    (hp : s.phase i = TaskPhase.waitToken) (ht : tokenAvail s i)
    (hopen : s.sinkErr = none) :
    i ∉ s.writes ∧ i = s.writes.length ∧
      s.writes ++ [i] = List.range (s.writes ++ [i]).length := by
  obtain ⟨h1, h2, h3⟩ := hw
  have hnotmem : i ∉ s.writes := by
    intro hmem
    have hx := h1 i hmem
    rw [hp] at hx
    exact TaskPhase.noConfusion hx
  have hieq : i = s.writes.length := by
    rcases i with _ | i'
    · by_contra hne
      apply hnotmem
      rw [h3]
      exact List.mem_range.mpr (by omega)
    · have hi' : s.phase i' = TaskPhase.returned := ht
      have hmem' : i' ∈ s.writes := by
        by_contra hnm
        exact (h2 i' hi' hnm) hopen
      have hlt : i' < s.writes.length := by
        rw [h3] at hmem'
        exact List.mem_range.mp hmem'
      have hge : ¬ (i' + 1 < s.writes.length) := by
        intro hlt2
        apply hnotmem
        rw [h3]
        exact List.mem_range.mpr hlt2
      omega
  refine ⟨hnotmem, hieq, ?_⟩
  rw [List.length_append, List.length_singleton, List.range_succ, ← h3, hieq]

lemma writeOrder_step {N K : Nat} {s s' : SchedState} (h : Step N K s s')
    (hchain : SpawnChain s.phase) (hw : WriteOrderInv s) : WriteOrderInv s' := by
  obtain ⟨h1, h2, h3⟩ := hw
  cases h with
  | cancel hcc => exact ⟨h1, h2, h3⟩
  | acquire i hi hp hcap =>
    refine ⟨?_, ?_, h3⟩
    · intro j hj
      have hx := h1 j hj
      show Function.update s.phase i TaskPhase.toSpawn j = TaskPhase.returned
      by_cases hji : j = i
      · subst hji; rw [hp] at hx; exact absurd hx (by decide)
      · rw [Function.update_noteq hji]; exact hx
    · intro j hret hj
      have hret' : Function.update s.phase i TaskPhase.toSpawn j = TaskPhase.returned := hret
      by_cases hji : j = i
      · subst hji; rw [Function.update_same] at hret'; exact absurd hret' (by decide)
      · rw [Function.update_noteq hji] at hret'; exact h2 j hret' hj
  | spawnNext i hi hp =>
    refine ⟨?_, ?_, h3⟩
    · intro j hj
      have hx := h1 j hj
      show Function.update (Function.update s.phase i TaskPhase.fetching) (i + 1)
        (if i + 1 = N then TaskPhase.termWait else TaskPhase.needPermit) j =
          TaskPhase.returned
      by_cases hji1 : j = i + 1
      · exfalso
        subst hji1
        have hne : s.phase (i + 1) ≠ TaskPhase.unspawned := by
          rw [hx]; exact fun hcon => TaskPhase.noConfusion hcon
        rcases hchain i hne with hz | hz | hz <;> rw [hp] at hz <;>
          exact TaskPhase.noConfusion hz
      · by_cases hji : j = i
        · subst hji; rw [hp] at hx; exact absurd hx (by decide)
        · rw [Function.update_noteq hji1, Function.update_noteq hji]; exact hx
    · intro j hret hj
      have hret' : Function.update (Function.update s.phase i TaskPhase.fetching) (i + 1)
          (if i + 1 = N then TaskPhase.termWait else TaskPhase.needPermit) j =
            TaskPhase.returned := hret
      by_cases hji1 : j = i + 1
      · subst hji1
        rw [Function.update_same] at hret'
        split at hret' <;> exact absurd hret' (by decide)
      · by_cases hji : j = i
        · subst hji
          rw [Function.update_noteq hji1, Function.update_same] at hret'
          exact absurd hret' (by decide)
        · rw [Function.update_noteq hji1, Function.update_noteq hji] at hret'
          exact h2 j hret' hj
  | fetchOk i hp =>
    refine ⟨?_, ?_, h3⟩
    · intro j hj
      have hx := h1 j hj
      show Function.update s.phase i TaskPhase.waitToken j = TaskPhase.returned
      by_cases hji : j = i
      · subst hji; rw [hp] at hx; exact absurd hx (by decide)
      · rw [Function.update_noteq hji]; exact hx
    · intro j hret hj
      have hret' : Function.update s.phase i TaskPhase.waitToken j = TaskPhase.returned := hret
      by_cases hji : j = i
      · subst hji; rw [Function.update_same] at hret'; exact absurd hret' (by decide)
      · rw [Function.update_noteq hji] at hret'; exact h2 j hret' hj
  | fetchFail i hp =>
    refine ⟨?_, ?_, h3⟩
    · intro j hj
      have hx := h1 j hj
      show Function.update s.phase i TaskPhase.returned j = TaskPhase.returned
      by_cases hji : j = i
      · subst hji; rw [Function.update_same]
      · rw [Function.update_noteq hji]; exact hx
    · intro j _ _
      exact closeSink_ne_none s (CloseReason.chunkErr i)
  | writeTurn i hp ht hopen =>
    obtain ⟨hnm, hieq, hw3⟩ := write_extends ⟨h1, h2, h3⟩ hp ht hopen
    refine ⟨?_, ?_, hw3⟩
    · intro j hj
      show Function.update s.phase i TaskPhase.returned j = TaskPhase.returned
      rw [List.mem_append] at hj
      rcases hj with hj | hj
      · by_cases hji : j = i
        · subst hji; rw [Function.update_same]
        · rw [Function.update_noteq hji]; exact h1 j hj
      · have hji : j = i := by simpa using hj
        subst hji; rw [Function.update_same]
    · intro j hret hj
      rw [List.mem_append] at hj
      push_neg at hj
      have hret' : Function.update s.phase i TaskPhase.returned j = TaskPhase.returned := hret
      by_cases hji : j = i
      · exfalso
        apply hj.2
        simp [hji]
      · rw [Function.update_noteq hji] at hret'
        show s.sinkErr ≠ none
        exact h2 j hret' hj.1
  | writeCopyFail i hp ht hopen =>
    obtain ⟨hnm, hieq, hw3⟩ := write_extends ⟨h1, h2, h3⟩ hp ht hopen
    refine ⟨?_, ?_, hw3⟩
    · intro j hj
      show Function.update s.phase i TaskPhase.returned j = TaskPhase.returned
      rw [List.mem_append] at hj
      rcases hj with hj | hj
      · by_cases hji : j = i
        · subst hji; rw [Function.update_same]
        · rw [Function.update_noteq hji]; exact h1 j hj
      · have hji : j = i := by simpa using hj
        subst hji; rw [Function.update_same]
    · intro j _ _
      exact fun hcon => Option.noConfusion hcon
  | writeClosed i hp ht hclosed =>
    refine ⟨?_, ?_, h3⟩
    · intro j hj
      have hx := h1 j hj
      show Function.update s.phase i TaskPhase.returned j = TaskPhase.returned
      by_cases hji : j = i
      · subst hji; rw [Function.update_same]
      · rw [Function.update_noteq hji]; exact hx
    · intro j hret hj
      have hret' : Function.update s.phase i TaskPhase.returned j = TaskPhase.returned := hret
      by_cases hji : j = i
      · exact hclosed
      · rw [Function.update_noteq hji] at hret'; exact h2 j hret' hj
  | cancelWait i hp hcc =>
    refine ⟨?_, ?_, h3⟩
    · intro j hj
      have hx := h1 j hj
      show Function.update s.phase i TaskPhase.returned j = TaskPhase.returned
      by_cases hji : j = i
      · subst hji; rw [Function.update_same]
      · rw [Function.update_noteq hji]; exact hx
    · intro j _ _
      exact closeSink_ne_none s CloseReason.ctxErr
  | termFinish hp ht =>
    refine ⟨?_, ?_, h3⟩
    · intro j hj
      have hx := h1 j hj
      show Function.update s.phase N TaskPhase.returned j = TaskPhase.returned
      by_cases hji : j = N
      · subst hji; rw [Function.update_same]
      · rw [Function.update_noteq hji]; exact hx
    · intro j _ _
      exact closeSink_ne_none s CloseReason.eof
  | termCancel hp hcc =>
    refine ⟨?_, ?_, h3⟩
    · intro j hj
      have hx := h1 j hj
      show Function.update s.phase N TaskPhase.returned j = TaskPhase.returned
      by_cases hji : j = N
      · subst hji; rw [Function.update_same]
      · rw [Function.update_noteq hji]; exact hx
    · intro j _ _
      exact closeSink_ne_none s CloseReason.ctxErr

lemma globalInv_reach {N K : Nat} {s : SchedState} (h : Reachable N K s) :
    SpawnChain s.phase ∧ WriteOrderInv s := by
  unfold Reachable at h
  induction h with
  | refl => exact ⟨spawnChain_init N, writeOrder_init N⟩
  | tail hab hbc ih => exact ⟨spawnChain_step hbc ih.1, writeOrder_step hbc ih.1 ih.2⟩

/-- Claim C5: in every reachable state of the scheduler, the sequence of
chunks written to the sink is exactly `0, 1, 2, …` in chunk (start
offset) order — `writes = List.range writes.length` — regardless of the
order in which fetches complete, because task `i` writes only once its
ordering token is available, i.e. only after task `i-1`'s invocation has
returned (finished writing or failed).  In particular the write order is
strictly increasing and, writes being whole-chunk steps serialized by the
token chain, no two chunks' bytes interleave. -/
theorem c5_writes_in_offset_order (N K : Nat) (s : SchedState) (h : Reachable N K s) :
    s.writes = List.range s.writes.length ∧ List.Sorted (· < ·) s.writes := by
  have h3 := (globalInv_reach h).2.2.2
  refine ⟨h3, ?_⟩
  rw [h3]
  exact List.sorted_lt_range _






/-- Witness for C5: a concrete 5-step execution with one chunk (two
tasks, permit capacity 1) that acquires, spawns, fetches, writes chunk 0
and closes with EOF, reaching a state with `writes = [0]`. -/
theorem c5_writes_in_offset_order_witness :
    ∃ s : SchedState, Reachable 1 1 s ∧ s.writes = [0] ∧
      s.writes = List.range s.writes.length ∧ List.Sorted (· < ·) s.writes := by
  have h1 : Step 1 1 (initState 1) c5w1 :=
    Step.acquire (initState 1) 0 (by decide) rfl (by decide)
  have h2 : Step 1 1 c5w1 c5w2 :=
    Step.spawnNext c5w1 0 (by decide) (by decide)
  have h3 : Step 1 1 c5w2 c5w3 :=
    Step.fetchOk c5w2 0 (by decide)
  have h4 : Step 1 1 c5w3 c5w4 :=
    Step.writeTurn c5w3 0 (by decide) trivial (by decide)
  have h5 : Step 1 1 c5w4 c5w5 :=
    Step.termFinish c5w4 (by decide) (show c5w4.phase 0 = TaskPhase.returned by decide)
  have hreach : Reachable 1 1 c5w5 :=
    Relation.ReflTransGen.tail (Relation.ReflTransGen.tail (Relation.ReflTransGen.tail
      (Relation.ReflTransGen.tail (Relation.ReflTransGen.tail
        Relation.ReflTransGen.refl h1) h2) h3) h4) h5
  have hth := c5_writes_in_offset_order 1 1 c5w5 hreach
  exact ⟨c5w5, hreach, by decide, hth.1, hth.2⟩

lemma sink_closed_absorbing {N K : Nat} {s s' : SchedState} (h : Step N K s s')
    {e : CloseReason} (he : s.sinkErr = some e) :
    s'.sinkErr = some e ∧ s'.writes = s.writes := by
  cases h with
  | cancel hcc => exact ⟨he, rfl⟩
  | acquire i hi hp hcap => exact ⟨he, rfl⟩
  | spawnNext i hi hp => exact ⟨he, rfl⟩
  | fetchOk i hp => exact ⟨he, rfl⟩
  | fetchFail i hp =>
    refine ⟨?_, rfl⟩
    show closeSink s (CloseReason.chunkErr i) = some e
    unfold closeSink
    rw [he]
  | writeTurn i hp ht hopen => rw [hopen] at he; exact Option.noConfusion he
  | writeCopyFail i hp ht hopen => rw [hopen] at he; exact Option.noConfusion he
  | writeClosed i hp ht hclosed => exact ⟨he, rfl⟩
  | cancelWait i hp hcc =>
    refine ⟨?_, rfl⟩
    show closeSink s CloseReason.ctxErr = some e
    unfold closeSink
    rw [he]
  | termFinish hp ht =>
    refine ⟨?_, rfl⟩
    show closeSink s CloseReason.eof = some e
    unfold closeSink
    rw [he]
  | termCancel hp hcc =>
    refine ⟨?_, rfl⟩
    show closeSink s CloseReason.ctxErr = some e
    unfold closeSink
    rw [he]

lemma sink_closed_forever {N K : Nat} {s t : SchedState}
    (h : Relation.ReflTransGen (Step N K) s t) {e : CloseReason}
    (he : s.sinkErr = some e) : t.sinkErr = some e ∧ t.writes = s.writes := by
  induction h with
  | refl => exact ⟨he, rfl⟩
  | tail hab hbc ih =>
    obtain ⟨ha, hb⟩ := ih
    obtain ⟨ha', hb'⟩ := sink_closed_absorbing hbc ha
    exact ⟨ha', hb'.trans hb⟩

/-- Claim C7: if any chunk's fetch fails at the transport level or
returns a status outside 200-299, that task can close the sink with that
chunk's error immediately — the `fetchFail` step needs no ordering token
— and from then on, in every subsequently reachable state, the sink's
closure reason remains that chunk's error (first close wins) and the
write sequence never grows: no bytes beyond the last chunk that completed
its in-order write are ever delivered to the consumer. -/
theorem c7_failure_propagation (N K : Nat) (s : SchedState) (i : Nat)
    (hp : s.phase i = TaskPhase.fetching) (hopen : s.sinkErr = none) :
    ∃ s', Step N K s s' ∧ s'.sinkErr = some (CloseReason.chunkErr i) ∧
      s'.writes = s.writes ∧
      ∀ t, Relation.ReflTransGen (Step N K) s' t →
        t.sinkErr = some (CloseReason.chunkErr i) ∧ t.writes = s.writes := by
  have hclose : closeSink s (CloseReason.chunkErr i) = some (CloseReason.chunkErr i) := by
    unfold closeSink
    rw [hopen]
  refine ⟨_, Step.fetchFail s i hp, hclose, rfl, ?_⟩
  intro t ht
  exact sink_closed_forever ht hclose


/-- Witness for C7 at a concrete state whose chunk 0 is mid-fetch with
the sink still open. -/
theorem c7_failure_propagation_witness :
    ∃ s', Step 1 1 c7WitStart s' ∧ s'.sinkErr = some (CloseReason.chunkErr 0) ∧
      s'.writes = [] ∧
      ∀ t, Relation.ReflTransGen (Step 1 1) s' t →
        t.sinkErr = some (CloseReason.chunkErr 0) ∧ t.writes = [] :=
  c7_failure_propagation 1 1 c7WitStart 0 rfl rfl

/-- Claim C8: if cancellation has fired while a task — a writing task at
its token wait, or the terminal task — is blocked waiting on its ordering
token (the token not yet available), then a step closing the sink with
the cancellation error exists, and every step by which that task returns
closes the sink with the cancellation error instead of performing its
write (the write list is unchanged) or instead of the clean EOF close;
`ctxErr` is distinct from `eof`, so the reader observes a terminal
condition different from ordinary end of stream. -/
theorem c8_cancellation_close (N K : Nat) (s : SchedState) (i : Nat)
    (hwait : s.phase i = TaskPhase.waitToken ∨ (i = N ∧ s.phase i = TaskPhase.termWait))
    (hcan : s.cancelled = true) (hnt : ¬ tokenAvail s i) (hopen : s.sinkErr = none) :
    (∃ s', Step N K s s' ∧ s'.phase i = TaskPhase.returned ∧
      s'.sinkErr = some CloseReason.ctxErr) ∧
    (∀ s', Step N K s s' → s'.phase i = TaskPhase.returned →
      s'.sinkErr = some CloseReason.ctxErr ∧ s'.writes = s.writes) ∧
    CloseReason.ctxErr ≠ CloseReason.eof := by
  have hclose : closeSink s CloseReason.ctxErr = some CloseReason.ctxErr := by
    unfold closeSink
    rw [hopen]
  have hnotret : s.phase i ≠ TaskPhase.returned := by
    rcases hwait with hw | ⟨_, hw⟩ <;> rw [hw] <;>
      exact fun hcon => TaskPhase.noConfusion hcon
  refine ⟨?_, ?_, by decide⟩
  · rcases hwait with hw | ⟨hiN, hw⟩
    · refine ⟨_, Step.cancelWait s i hw hcan, ?_, hclose⟩
      show Function.update s.phase i TaskPhase.returned i = TaskPhase.returned
      rw [Function.update_same]
    · subst hiN
      refine ⟨_, Step.termCancel s hw hcan, ?_, hclose⟩
      show Function.update s.phase i TaskPhase.returned i = TaskPhase.returned
      rw [Function.update_same]
  · intro s' hstep hret
    cases hstep with
    | cancel hcc =>
      exact absurd hret hnotret
    | acquire j hj hpj hcapj =>
      exfalso
      have hret' : Function.update s.phase j TaskPhase.toSpawn i = TaskPhase.returned := hret
      by_cases hij : i = j
      · rw [hij, Function.update_same] at hret'
        exact TaskPhase.noConfusion hret'
      · rw [Function.update_noteq hij] at hret'
        exact hnotret hret'
    | spawnNext j hj hpj =>
      exfalso
      have hret' : Function.update (Function.update s.phase j TaskPhase.fetching) (j + 1)
          (if j + 1 = N then TaskPhase.termWait else TaskPhase.needPermit) i =
            TaskPhase.returned := hret
      by_cases hij1 : i = j + 1
      · rw [hij1, Function.update_same] at hret'
        split at hret' <;> exact TaskPhase.noConfusion hret'
      · by_cases hij : i = j
        · rw [Function.update_noteq hij1, hij, Function.update_same] at hret'
          exact TaskPhase.noConfusion hret'
        · rw [Function.update_noteq hij1, Function.update_noteq hij] at hret'
          exact hnotret hret'
    | fetchOk j hpj =>
      exfalso
      have hret' : Function.update s.phase j TaskPhase.waitToken i = TaskPhase.returned := hret
      by_cases hij : i = j
      · rw [hij, Function.update_same] at hret'
        exact TaskPhase.noConfusion hret'
      · rw [Function.update_noteq hij] at hret'
        exact hnotret hret'
    | fetchFail j hpj =>
      exfalso
      by_cases hij : i = j
      · rw [← hij] at hpj
        rcases hwait with hw | ⟨_, hw⟩ <;> rw [hw] at hpj <;>
          exact TaskPhase.noConfusion hpj
      · have hret' : Function.update s.phase j TaskPhase.returned i = TaskPhase.returned := hret
        rw [Function.update_noteq hij] at hret'
        exact hnotret hret'
    | writeTurn j hpj htj hopenj =>
      by_cases hij : i = j
      · rw [← hij] at htj
        exact absurd htj hnt
      · exfalso
        have hret' : Function.update s.phase j TaskPhase.returned i = TaskPhase.returned := hret
        rw [Function.update_noteq hij] at hret'
        exact hnotret hret'
    | writeCopyFail j hpj htj hopenj =>
      by_cases hij : i = j
      · rw [← hij] at htj
        exact absurd htj hnt
      · exfalso
        have hret' : Function.update s.phase j TaskPhase.returned i = TaskPhase.returned := hret
        rw [Function.update_noteq hij] at hret'
        exact hnotret hret'
    | writeClosed j hpj htj hclosedj =>
      by_cases hij : i = j
      · rw [← hij] at htj
        exact absurd htj hnt
      · exfalso
        have hret' : Function.update s.phase j TaskPhase.returned i = TaskPhase.returned := hret
        rw [Function.update_noteq hij] at hret'
        exact hnotret hret'
    | cancelWait j hpj hccj =>
      by_cases hij : i = j
      · exact ⟨hclose, rfl⟩
      · exfalso
        have hret' : Function.update s.phase j TaskPhase.returned i = TaskPhase.returned := hret
        rw [Function.update_noteq hij] at hret'
        exact hnotret hret'
    | termFinish hpN htN =>
      by_cases hiN : i = N
      · rw [← hiN] at htN
        exact absurd htN hnt
      · exfalso
        have hret' : Function.update s.phase N TaskPhase.returned i = TaskPhase.returned := hret
        rw [Function.update_noteq hiN] at hret'
        exact hnotret hret'
    | termCancel hpN hccN =>
      by_cases hiN : i = N
      · exact ⟨hclose, rfl⟩
      · exfalso
        have hret' : Function.update s.phase N TaskPhase.returned i = TaskPhase.returned := hret
        rw [Function.update_noteq hiN] at hret'
        exact hnotret hret'


/-- Witness for C8 at a concrete cancelled state whose terminal task 1
waits on a token that task 0 (still fetching) has not released. -/
theorem c8_cancellation_close_witness :
    ∃ s', Step 1 1 c8WitStart s' ∧ s'.phase 1 = TaskPhase.returned ∧
      s'.sinkErr = some CloseReason.ctxErr :=
  (c8_cancellation_close 1 1 c8WitStart 1 (Or.inr ⟨rfl, rfl⟩) rfl
    (fun h => absurd (show c8WitStart.phase 0 = TaskPhase.returned from h) (by decide))
    rfl).1

end Httpio
